import Mathlib

/-!
Verification development for `generarproyecto.py`, a LaTeX project scaffolder.

The source is a single Python file.  We shallowly embed its core logic:

* `slugify` — title normalization (accent table, lowercasing, regex cleanup);
* `sustituir_placeholders` — double-brace placeholder substitution;
* `verificar_plantillas` — template-store resolution;
* `crear_proyecto` — project materialization over an explicit file-system
  state.

Python strings are sequences of Unicode code points; we model them as
`List Char`.  Python's `str.lower`, `str.strip`, and the regex classes
`\w` / `\s` consult the full Unicode database; the embedding reproduces
their tables exactly on the Basic Latin and Latin-1 Supplement blocks
(code points up to U+00FF, plus the word character U+03BC), and treats
higher code points as non-word, non-space and case-invariant.  Every
character mentioned by the source (its accent table and its literals)
lies in the modelled range.
-/

namespace GenerarProyecto

/-- Code points of `List Char` data of a string literal. -/
def strL (s : String) : List Char := s.data

/-- Opening curly brace, written by code point to keep literals brace-free. -/
def lbrace : Char := '\x7b'

/-- Closing curly brace. -/
def rbrace : Char := '\x7d'

/-- Python `str.isspace` / regex `\s` on the modelled range: ASCII whitespace,
the four information-separator controls U+001C–U+001F, NEL U+0085 and
NBSP U+00A0. -/
def pyIsSpace (c : Char) : Bool :=
  [9, 10, 11, 12, 13, 28, 29, 30, 31, 32, 133, 160].contains c.toNat

/-- Python regex `\w` (Unicode word character: alphanumeric or underscore) on
the modelled range: ASCII digits, ASCII letters, underscore, the Latin-1
letters and numeric signs (ª ² ³ µ ¹ º ¼ ½ ¾ and U+00C0–U+00FF except the
multiplication and division signs), and μ (U+03BC). -/
def pyIsWord (c : Char) : Bool :=
  let n := c.toNat
  decide ((48 ≤ n ∧ n ≤ 57) ∨ (65 ≤ n ∧ n ≤ 90) ∨ (97 ≤ n ∧ n ≤ 122) ∨ n = 95 ∨
    n = 170 ∨ n = 178 ∨ n = 179 ∨ n = 181 ∨ n = 185 ∨ n = 186 ∨
    n = 188 ∨ n = 189 ∨ n = 190 ∨
    (192 ≤ n ∧ n ≤ 255 ∧ n ≠ 215 ∧ n ≠ 247) ∨ n = 956)

/-- Python `str.lower` on the modelled range: `A`–`Z` and `À`–`Þ` (except `×`)
shift by 32, everything else is fixed (in particular `µ` (U+00B5) is
already lowercase and `str.lower` leaves it unchanged; only `casefold`
maps it to μ). -/
def pyLower (c : Char) : Char :=
  if 65 ≤ c.toNat ∧ c.toNat ≤ 90 then Char.ofNat (c.toNat + 32)
  else if 192 ≤ c.toNat ∧ c.toNat ≤ 222 ∧ c.toNat ≠ 215 then Char.ofNat (c.toNat + 32)
  else c

/-- Python `texto.replace(o, r)` for a single-character pattern `o` and a
single-character replacement `r`. -/
def repl1 (o r : Char) (l : List Char) : List Char :=
  l.map fun c => if c = o then r else c

/-- The fixed accent table `reemplazos` of `slugify` (source lines 75–79). -/
def reemplazos : List (Char × Char) :=
  [('á', 'a'), ('é', 'e'), ('í', 'i'), ('ó', 'o'), ('ú', 'u'),
   ('Á', 'A'), ('É', 'E'), ('Í', 'I'), ('Ó', 'O'), ('Ú', 'U'),
   ('ñ', 'n'), ('Ñ', 'N'), ('ü', 'u'), ('Ü', 'U')]

/-- The net effect of the replacement loop on one character.  The loop of
source lines 80–81 applies the fourteen single-character replaces in
sequence; since no replacement character is itself a pattern, the loop
equals a single simultaneous pass (theorem `aplicarReemplazos_foldl`
below proves the equality with the literal sequential fold). -/
def reemplazarChar (c : Char) : Char :=
  if c = 'á' then 'a' else if c = 'é' then 'e' else if c = 'í' then 'i'
  else if c = 'ó' then 'o' else if c = 'ú' then 'u'
  else if c = 'Á' then 'A' else if c = 'É' then 'E' else if c = 'Í' then 'I'
  else if c = 'Ó' then 'O' else if c = 'Ú' then 'U'
  else if c = 'ñ' then 'n' else if c = 'Ñ' then 'N'
  else if c = 'ü' then 'u' else if c = 'Ü' then 'U' else c

/-- The `for original, reemplazo in reemplazos.items(): texto.replace(...)`
loop of `slugify` (source lines 80–81), as the equivalent single pass. -/
def aplicarReemplazos (l : List Char) : List Char :=
  l.map reemplazarChar

/-- Strip the characters satisfying `p` from both ends, as Python
`str.strip` does. -/
def stripChars (p : Char → Bool) (l : List Char) : List Char :=
  (((l.dropWhile p).reverse).dropWhile p).reverse

/-- Worker for regex run replacement: `re.sub(klass+, r, text)` scans left to
right, emitting `r` once per maximal run of characters satisfying `p`.  The
flag records whether the scan is inside a run. -/
def colapsarAux (p : Char → Bool) (r : Char) : Bool → List Char → List Char
  | _, [] => []
  | enRun, c :: cs =>
    if p c then
      if enRun then colapsarAux p r true cs
      else r :: colapsarAux p r true cs
    else c :: colapsarAux p r false cs

/-- Regex substitution `re.sub("[klass]+", r, text)` for a character class. -/
def colapsar (p : Char → Bool) (r : Char) (l : List Char) : List Char :=
  colapsarAux p r false l

/-- Function `slugify` (source lines 69–88), on code-point lists: apply the accent
table, lowercase and strip, delete characters outside `\w`, `\s` and `-`,
collapse whitespace/underscore runs to `-`, collapse hyphen runs, and strip
edge hyphens. -/
def slugifyL (texto : List Char) : List Char :=
  let t1 := aplicarReemplazos texto
  let t2 := stripChars pyIsSpace (t1.map pyLower)
  let t3 := t2.filter fun c => pyIsWord c || pyIsSpace c || c == '-'
  let t4 := colapsar (fun c => pyIsSpace c || c == '_') '-' t3
  let t5 := colapsar (fun c => c == '-') '-' t4
  stripChars (fun c => c == '-') t5

/-- Function `slugify` on strings. -/
def slugify (texto : String) : String := String.mk (slugifyL texto.data)

/-- Steps 1–2 of `slugify`: the accent table, lowercasing and stripping —
"normalization" in the sense of the specification. -/
def normalizado (texto : List Char) : List Char :=
  stripChars pyIsSpace ((aplicarReemplazos texto).map pyLower)

/-- Whether a code-point list contains alphanumeric content: a word
character other than underscore. -/
def tieneContenidoAlfanumerico (l : List Char) : Bool :=
  l.any fun c => pyIsWord c && !(c == '_')

/-- Characters that may appear in a `slugify` output: lowercase-invariant
word characters other than underscore, and the hyphen. -/
def esSlugChar (c : Char) : Bool :=
  (pyIsWord c && !(c == '_') && !(pyIsSpace c) && (pyLower c == c)) || c == '-'

/-- No two adjacent hyphens anywhere in the list. -/
def sinDobleGuion : List Char → Bool
  | [] => true
  | [_] => true
  | a :: b :: t => !(a == '-' && b == '-') && sinDobleGuion (b :: t)

/-- Neither the first nor the last character is a hyphen. -/
def sinGuionBorde (l : List Char) : Bool :=
  (l.head? != some '-') && (l.getLast? != some '-')

/-- Whether an occurrence of `pat` begins at some position strictly inside
the prefix `pre` of `pre ++ rest` (it may extend into `rest`). -/
def startsIn (pat : List Char) : List Char → List Char → Bool
  | [], _ => false
  | c :: pre, rest => pat.isPrefixOf (c :: (pre ++ rest)) || startsIn pat pre rest

/-- The wrapped form of a placeholder key: the Python f-string
`f"{{{{{clave}}}}}"`, that is the key surrounded by double braces. -/
def wrapped (clave : List Char) : List Char :=
  lbrace :: lbrace :: clave ++ [rbrace, rbrace]

/-- Scanner for Python `str.replace(pat, repl)`.  The counter is the number
of characters of a matched occurrence still to be skipped: while positive
the scan discards characters; at zero it compares the pattern against the
current position, emitting the replacement on a match (and skipping the
rest of the occurrence), the current character otherwise.  Occurrences are
found left to right, are non-overlapping, and the inserted replacement is
never rescanned. -/
def replaceGo (pat repl : List Char) : Nat → List Char → List Char
  | _, [] => []
  | k + 1, _ :: cs => replaceGo pat repl k cs
  | 0, c :: cs =>
    if pat.isPrefixOf (c :: cs) ∧ pat ≠ [] then
      repl ++ replaceGo pat repl (pat.length - 1) cs
    else
      c :: replaceGo pat repl 0 cs

/-- Python `str.replace(pat, repl)` for a non-empty pattern (an empty
pattern never fires here; the guard in `replaceGo` keeps the function
total on it — the program only uses patterns of length at least four). -/
def replaceL (pat repl l : List Char) : List Char :=
  replaceGo pat repl 0 l

/-- Whether `pat` occurs as a contiguous substring, by the same scan
`replaceL` performs. -/
def occursIn (pat : List Char) : List Char → Bool
  | [] => pat.isEmpty
  | c :: cs => pat.isPrefixOf (c :: cs) || occursIn pat cs

/-- Whether a token name or key is brace-free.  The program's actual keys
(`TITULO`, `AUTOR`, `FECHA`, `NOMBRE_ARCHIVO`) all are. -/
def sinLlaves (l : List Char) : Bool :=
  l.all fun c => !(c == lbrace || c == rbrace)

/-- Function `sustituir_placeholders` (source lines 91–95): fold the variable mapping
in order, replacing every occurrence of each wrapped key with its value. -/
def sustituir_placeholders (contenido : List Char)
    (vars : List (List Char × List Char)) : List Char :=
  vars.foldl (fun c kv => replaceL (wrapped kv.1) kv.2 c) contenido

/-! ## File-system model

`pathlib` paths are modelled as lists of name components; the state of the
file system is the set of existing directories plus the existing files with
their text contents.  Creation operations only ever add entries. -/

/-- A `pathlib.Path`, as its list of components. -/
abbrev Ruta := List String

/-- The file-system state: existing directories and existing files. -/
structure FS where
  dirs : List Ruta
  files : List (Ruta × List Char)
deriving DecidableEq

/-- Method `Path.__truediv__`: joining with the empty string adds no component
(pathlib parses `""` into no parts), otherwise append one component. -/
def pjoin (p : Ruta) (s : String) : Ruta :=
  if s = "" then p else p ++ [s]

/-- Whether a file with this exact path exists. -/
def fsFileExists (fs : FS) (p : Ruta) : Bool :=
  fs.files.any fun e => decide (e.1 = p)

/-- Method `Path.exists()`: true for an existing directory or an existing file. -/
def fsExists (fs : FS) (p : Ruta) : Bool :=
  decide (p ∈ fs.dirs) || fsFileExists fs p

/-- Method `Path.write_text`: record the file (most recent entry first). -/
def writeFile (fs : FS) (p : Ruta) (contenido : List Char) : FS :=
  { fs with files := (p, contenido) :: fs.files }

/-- Method `Path.mkdir` — ancestor directories implied by `parents=True` are not
tracked separately; only the created directory itself is recorded. -/
def mkdirFS (fs : FS) (p : Ruta) : FS :=
  { fs with dirs := p :: fs.dirs }

/-- Method `Path.read_text`, defaulting to the empty text when the file does not
exist (the program only reads files it has just checked to exist). -/
def readFileD (fs : FS) (p : Ruta) : List Char :=
  ((fs.files.find? fun e => decide (e.1 = p)).map Prod.snd).getD []

/-! ## The program's configuration tables -/

/-- One entry of the `TIPOS` table. -/
structure InfoTipo where
  plantilla : String
  descripcion : String
  clase : String
deriving DecidableEq

/-- The `TIPOS` table (source lines 42–58). -/
def TIPOS : List (String × InfoTipo) :=
  [("art", ⟨"articulo.tex", "Artículo (article)", "article"⟩),
   ("ens", ⟨"ensayo.tex", "Ensayo (report)", "report"⟩),
   ("pres", ⟨"presentacion.tex", "Presentación (beamer)", "beamer"⟩)]

/-- The required template files (source lines 117–118). -/
def archivos_necesarios : List String :=
  ["articulo.tex", "ensayo.tex", "presentacion.tex", "referencias.bib", "Makefile"]

/-- The distinct fatal-exit sites of the program (each is `sys.exit(1)`
preceded by its own message). -/
inductive Err where
  | tipoNoReconocido
  | plantillasNoEncontradas
  | directorioYaExiste
deriving DecidableEq

/-- Function `verificar_plantillas` (source lines 105–126): exits fatally when the
template directory itself is missing; otherwise returns normally, the
second component being the advisory list `faltantes` of required files that
are absent (printed as a warning). -/
def verificar_plantillas (templates_dir : Ruta) (fs : FS) :
    Option Err × List String :=
  if !(fsExists fs templates_dir) then
    (some Err.plantillasNoEncontradas, [])
  else
    (none, archivos_necesarios.filter fun a => !(fsExists fs (pjoin templates_dir a)))

/-- Function `copiar_plantilla` (source lines 98–102): read the template, substitute
the placeholders, write the result. -/
def copiar_plantilla (origen destino : Ruta)
    (vars : List (List Char × List Char)) (fs : FS) : FS :=
  writeFile fs destino (sustituir_placeholders (readFileD fs origen) vars)

/-- The Spanish month table `meses_es` (source lines 146–150). -/
def meses_es (m : Nat) : String :=
  match m with
  | 1 => "enero" | 2 => "febrero" | 3 => "marzo" | 4 => "abril"
  | 5 => "mayo" | 6 => "junio" | 7 => "julio" | 8 => "agosto"
  | 9 => "septiembre" | 10 => "octubre" | 11 => "noviembre" | 12 => "diciembre"
  | _ => ""

/-- The current date, passed explicitly (the source reads the system clock
with `datetime.now()`). -/
structure Fecha where
  dia : Nat
  mes : Nat
  anio : Nat
deriving DecidableEq

/-- The formatted date `f"{hoy.day} de {meses_es[hoy.month]} de {hoy.year}"`
(source line 152). -/
def fecha_es (hoy : Fecha) : List Char :=
  strL (toString hoy.dia) ++ strL " de " ++ strL (meses_es hoy.mes) ++
    strL " de " ++ strL (toString hoy.anio)

/-- The fallback `.tex` body written when the main template is missing
(source lines 181–190). -/
def texMinimo (clase : String) (nombre autor fecha : List Char) : List Char :=
  strL "\\documentclass" ++ [lbrace] ++ strL clase ++ [rbrace] ++ strL "\n" ++
  strL "\\title" ++ [lbrace] ++ nombre ++ [rbrace] ++ strL "\n" ++
  strL "\\author" ++ [lbrace] ++ autor ++ [rbrace] ++ strL "\n" ++
  strL "\\date" ++ [lbrace] ++ fecha ++ [rbrace] ++ strL "\n" ++
  strL "\\begin" ++ [lbrace] ++ strL "document" ++ [rbrace] ++ strL "\n" ++
  strL "\\maketitle\n\n" ++
  strL "\\end" ++ [lbrace] ++ strL "document" ++ [rbrace] ++ strL "\n"

/-- The hard-coded `.gitignore` body (source lines 207–225). -/
def gitignore_contenido : List Char :=
  strL "# LaTeX auxiliares\n*.aux\n*.bbl\n*.bcf\n*.blg\n*.log\n*.nav\n*.out\n*.run.xml\n*.snm\n*.toc\n*.vrb\n*.fdb_latexmk\n*.fls\n*.synctex.gz\n\n# PDF generado (descomenta si no quieres versionarlo)\n# *.pdf\n"

/-- Function `crear_proyecto` (source lines 132–249).  The clock and the template
directory are explicit parameters; the result pairs the fatal exit taken,
if any, with the file-system state at that moment. -/
def crear_proyecto (nombre : List Char) (tipo : String) (autor : List Char)
    (directorio_base : Ruta) (hoy : Fecha) (templates_dir : Ruta)
    (fs : FS) : Option Err × FS :=
  match TIPOS.lookup tipo with
  | none => (some Err.tipoNoReconocido, fs)
  | some info_tipo =>
    match (verificar_plantillas templates_dir fs).1 with
    | some e => (some e, fs)
    | none =>
      let slug := slugifyL nombre
      let fecha := fecha_es hoy
      let vars := [(strL "TITULO", nombre), (strL "AUTOR", autor),
                   (strL "FECHA", fecha), (strL "NOMBRE_ARCHIVO", slug)]
      let dir_proyecto := pjoin directorio_base (String.mk slug)
      if fsExists fs dir_proyecto then
        (some Err.directorioYaExiste, fs)
      else
        let fs1 := mkdirFS fs dir_proyecto
        let fs2 := mkdirFS fs1 (pjoin dir_proyecto "figuras")
        let plantilla_origen := pjoin templates_dir info_tipo.plantilla
        let archivo_tex := pjoin dir_proyecto (String.mk (slug ++ strL ".tex"))
        let fs3 :=
          if fsExists fs2 plantilla_origen then
            copiar_plantilla plantilla_origen archivo_tex vars fs2
          else
            writeFile fs2 archivo_tex (texMinimo info_tipo.clase nombre autor fecha)
        let bib_origen := pjoin templates_dir "referencias.bib"
        let fs4 :=
          if fsExists fs3 bib_origen then
            copiar_plantilla bib_origen (pjoin dir_proyecto "referencias.bib") vars fs3
          else
            writeFile fs3 (pjoin dir_proyecto "referencias.bib")
              (strL "% Referencias bibliográficas\n")
        let makefile_origen := pjoin templates_dir "Makefile"
        let fs5 :=
          if fsExists fs4 makefile_origen then
            copiar_plantilla makefile_origen (pjoin dir_proyecto "Makefile") vars fs4
          else
            fs4
        let fs6 := writeFile fs5 (pjoin dir_proyecto ".gitignore") gitignore_contenido
        (none, fs6)

/-- The code points of the accent table's pattern characters. -/
def enTabla (n : Nat) : Prop :=
  n = 225 ∨ n = 233 ∨ n = 237 ∨ n = 243 ∨ n = 250 ∨
  n = 193 ∨ n = 201 ∨ n = 205 ∨ n = 211 ∨ n = 218 ∨
  n = 241 ∨ n = 209 ∨ n = 252 ∨ n = 220

instance (n : Nat) : Decidable (enTabla n) := by
  unfold enTabla
  infer_instance

-- Sanity checks on concrete inputs (kept as anonymous examples).
example : slugifyL (strL "Mi artículo sobre IA") = strL "mi-articulo-sobre-ia" := by decide
example : slugifyL (strL "Ética en IA") = strL "etica-en-ia" := by decide
example : slugifyL (strL "  Mi --- artículo!!  ") = strL "mi-articulo" := by decide
example : slugifyL (strL "ç") = strL "ç" := by decide
example : slugifyL (strL "µ") = strL "µ" := by decide
example : slugifyL (strL "___") = [] := by decide

example :
    sustituir_placeholders (wrapped (strL "UNKNOWN") ++ ' ' :: wrapped (strL "TITLE"))
      [(strL "TITLE", strL "X")] =
    wrapped (strL "UNKNOWN") ++ ' ' :: strL "X" := by decide

example :
    sustituir_placeholders (wrapped (strL "A"))
      [(strL "A", wrapped (strL "B")), (strL "B", strL "x")] = strL "x" := by decide

-- A file system with a template directory (no template files) and a base
-- directory, used in concrete checks below.
example :
    (crear_proyecto (strL "Hola") "art" (strL "Ana") ["b"] ⟨1, 1, 2026⟩ ["t"]
      ⟨[["t"], ["b"]], []⟩).1 = none := by decide

example :
    readFileD (crear_proyecto (strL "Hola") "art" (strL "Ana") ["b"] ⟨1, 1, 2026⟩ ["t"]
      ⟨[["t"], ["b"]], []⟩).2 ["b", "hola", "referencias.bib"] =
    strL "% Referencias bibliográficas\n" := by decide

example :
    (crear_proyecto (strL "Hola") "art" (strL "Ana") ["b"] ⟨1, 1, 2026⟩ ["t"]
      ⟨[["b", "hola"], ["t"], ["b"]], []⟩) =
    (some Err.directorioYaExiste, ⟨[["b", "hola"], ["t"], ["b"]], []⟩) := by decide

/-! ## Character-level lemmas -/

theorem char_eq_of_toNat_eq {a b : Char} (h : a.toNat = b.toNat) : a = b :=
  Char.eq_of_val_eq (UInt32.eq_of_toBitVec_eq (by
    simp only [Char.toNat, UInt32.toNat] at h
    exact BitVec.eq_of_toNat_eq h))

theorem toNat_ofNat_valido {n : Nat} (h : n < 55296) : (Char.ofNat n).toNat = n := by
  have hv : n.isValidChar := Or.inl h
  simp [Char.ofNat, hv, Char.ofNatAux, Char.toNat, UInt32.toNat]

theorem char_toNat_lt (c : Char) : c.toNat < 1114112 := by
  rcases c.valid with h | ⟨_, h⟩
  · exact Nat.lt_trans h (by norm_num)
  · exact h

theorem pyLower_toNat (c : Char) :
    (pyLower c).toNat =
      (if 65 ≤ c.toNat ∧ c.toNat ≤ 90 then c.toNat + 32
       else if 192 ≤ c.toNat ∧ c.toNat ≤ 222 ∧ c.toNat ≠ 215 then c.toNat + 32
       else c.toNat) := by
  unfold pyLower
  split_ifs with h1 h2
  · exact toNat_ofNat_valido (by omega)
  · exact toNat_ofNat_valido (by omega)
  · rfl

theorem pyLower_idem (c : Char) : pyLower (pyLower c) = pyLower c := by
  apply char_eq_of_toNat_eq
  rw [pyLower_toNat, pyLower_toNat]
  split_ifs <;> omega

theorem pyIsSpace_iff {c : Char} :
    pyIsSpace c = true ↔
      (c.toNat = 9 ∨ c.toNat = 10 ∨ c.toNat = 11 ∨ c.toNat = 12 ∨ c.toNat = 13 ∨
       c.toNat = 28 ∨ c.toNat = 29 ∨ c.toNat = 30 ∨ c.toNat = 31 ∨ c.toNat = 32 ∨
       c.toNat = 133 ∨ c.toNat = 160) := by
  simp [pyIsSpace, List.contains_cons, Bool.or_eq_true, beq_iff_eq]

theorem pyIsWord_iff {c : Char} :
    pyIsWord c = true ↔
      ((48 ≤ c.toNat ∧ c.toNat ≤ 57) ∨ (65 ≤ c.toNat ∧ c.toNat ≤ 90) ∨
       (97 ≤ c.toNat ∧ c.toNat ≤ 122) ∨ c.toNat = 95 ∨
       c.toNat = 170 ∨ c.toNat = 178 ∨ c.toNat = 179 ∨ c.toNat = 181 ∨
       c.toNat = 185 ∨ c.toNat = 186 ∨ c.toNat = 188 ∨ c.toNat = 189 ∨ c.toNat = 190 ∨
       (192 ≤ c.toNat ∧ c.toNat ≤ 255 ∧ c.toNat ≠ 215 ∧ c.toNat ≠ 247) ∨
       c.toNat = 956) := by
  simp [pyIsWord]

theorem word_no_espacio {c : Char} (h : pyIsWord c = true) : pyIsSpace c = false := by
  cases hs : pyIsSpace c with
  | false => rfl
  | true =>
    rw [pyIsSpace_iff] at hs
    rw [pyIsWord_iff] at h
    omega

theorem word_ne_guion {c : Char} (h : pyIsWord c = true) : c ≠ '-' := by
  intro he
  subst he
  exact absurd h (by decide)

theorem pyLower_no_word {c : Char} (h : pyIsWord c = false) : pyLower c = c := by
  have h' : ¬ pyIsWord c = true := by simp [h]
  rw [pyIsWord_iff] at h'
  unfold pyLower
  split_ifs with h1 h2
  · exact absurd h1 (fun hx => h' (Or.inr (Or.inl hx)))
  · exfalso; omega
  · rfl

theorem enTabla_exists {c : Char} (h : enTabla c.toNat) : ∃ p ∈ reemplazos, c = p.1 := by
  unfold enTabla at h
  rcases h with h|h|h|h|h|h|h|h|h|h|h|h|h|h
  · exact ⟨('á', 'a'), by decide, char_eq_of_toNat_eq (by rw [h]; decide)⟩
  · exact ⟨('é', 'e'), by decide, char_eq_of_toNat_eq (by rw [h]; decide)⟩
  · exact ⟨('í', 'i'), by decide, char_eq_of_toNat_eq (by rw [h]; decide)⟩
  · exact ⟨('ó', 'o'), by decide, char_eq_of_toNat_eq (by rw [h]; decide)⟩
  · exact ⟨('ú', 'u'), by decide, char_eq_of_toNat_eq (by rw [h]; decide)⟩
  · exact ⟨('Á', 'A'), by decide, char_eq_of_toNat_eq (by rw [h]; decide)⟩
  · exact ⟨('É', 'E'), by decide, char_eq_of_toNat_eq (by rw [h]; decide)⟩
  · exact ⟨('Í', 'I'), by decide, char_eq_of_toNat_eq (by rw [h]; decide)⟩
  · exact ⟨('Ó', 'O'), by decide, char_eq_of_toNat_eq (by rw [h]; decide)⟩
  · exact ⟨('Ú', 'U'), by decide, char_eq_of_toNat_eq (by rw [h]; decide)⟩
  · exact ⟨('ñ', 'n'), by decide, char_eq_of_toNat_eq (by rw [h]; decide)⟩
  · exact ⟨('Ñ', 'N'), by decide, char_eq_of_toNat_eq (by rw [h]; decide)⟩
  · exact ⟨('ü', 'u'), by decide, char_eq_of_toNat_eq (by rw [h]; decide)⟩
  · exact ⟨('Ü', 'U'), by decide, char_eq_of_toNat_eq (by rw [h]; decide)⟩

theorem no_tabla_of_forall {c : Char} (h : ∀ p ∈ reemplazos, c ≠ p.1) :
    ¬ enTabla c.toNat := fun ht =>
  let ⟨p, hp, he⟩ := enTabla_exists ht
  h p hp he

theorem tabla_enTabla : ∀ p ∈ reemplazos, enTabla p.1.toNat := by decide

theorem pyLower_tabla {c : Char} (h : ¬ enTabla c.toNat) :
    ¬ enTabla (pyLower c).toNat := by
  unfold enTabla at *
  rw [pyLower_toNat]
  split_ifs <;> omega

/-! ## Lemmas on the list-processing stages of `slugify` -/

theorem foldl_repl1_cons (ps : List (Char × Char)) (c : Char) (l : List Char) :
    ps.foldl (fun t p => repl1 p.1 p.2 t) (c :: l) =
      ps.foldl (fun a p => if a = p.1 then p.2 else a) c ::
        ps.foldl (fun t p => repl1 p.1 p.2 t) l := by
  induction ps generalizing c l with
  | nil => rfl
  | cons p ps ih =>
    rw [List.foldl_cons, List.foldl_cons, List.foldl_cons,
      show repl1 p.1 p.2 (c :: l) = (if c = p.1 then p.2 else c) :: repl1 p.1 p.2 l from rfl]
    exact ih _ _

theorem foldl_reemplazarChar (c : Char) :
    reemplazos.foldl (fun a p => if a = p.1 then p.2 else a) c = reemplazarChar c := by
  by_cases h1 : c = 'á'
  · subst h1; decide
  by_cases h2 : c = 'é'
  · subst h2; decide
  by_cases h3 : c = 'í'
  · subst h3; decide
  by_cases h4 : c = 'ó'
  · subst h4; decide
  by_cases h5 : c = 'ú'
  · subst h5; decide
  by_cases h6 : c = 'Á'
  · subst h6; decide
  by_cases h7 : c = 'É'
  · subst h7; decide
  by_cases h8 : c = 'Í'
  · subst h8; decide
  by_cases h9 : c = 'Ó'
  · subst h9; decide
  by_cases h10 : c = 'Ú'
  · subst h10; decide
  by_cases h11 : c = 'ñ'
  · subst h11; decide
  by_cases h12 : c = 'Ñ'
  · subst h12; decide
  by_cases h13 : c = 'ü'
  · subst h13; decide
  by_cases h14 : c = 'Ü'
  · subst h14; decide
  simp only [reemplazos, List.foldl_cons, List.foldl_nil, reemplazarChar,
    if_neg h1, if_neg h2, if_neg h3, if_neg h4, if_neg h5, if_neg h6, if_neg h7,
    if_neg h8, if_neg h9, if_neg h10, if_neg h11, if_neg h12, if_neg h13, if_neg h14]

theorem aplicarReemplazos_foldl (l : List Char) :
    reemplazos.foldl (fun t p => repl1 p.1 p.2 t) l = aplicarReemplazos l := by
  induction l with
  | nil => decide
  | cons c cs ih =>
    rw [foldl_repl1_cons, ih, foldl_reemplazarChar]
    rfl

theorem reemplazarChar_spec (c : Char) :
    (reemplazarChar c = c ∧ ¬ enTabla c.toNat) ∨
      ∃ p ∈ reemplazos, c = p.1 ∧ reemplazarChar c = p.2 := by
  by_cases h1 : c = 'á'
  · subst h1; exact Or.inr ⟨('á', 'a'), by decide, rfl, by decide⟩
  by_cases h2 : c = 'é'
  · subst h2; exact Or.inr ⟨('é', 'e'), by decide, rfl, by decide⟩
  by_cases h3 : c = 'í'
  · subst h3; exact Or.inr ⟨('í', 'i'), by decide, rfl, by decide⟩
  by_cases h4 : c = 'ó'
  · subst h4; exact Or.inr ⟨('ó', 'o'), by decide, rfl, by decide⟩
  by_cases h5 : c = 'ú'
  · subst h5; exact Or.inr ⟨('ú', 'u'), by decide, rfl, by decide⟩
  by_cases h6 : c = 'Á'
  · subst h6; exact Or.inr ⟨('Á', 'A'), by decide, rfl, by decide⟩
  by_cases h7 : c = 'É'
  · subst h7; exact Or.inr ⟨('É', 'E'), by decide, rfl, by decide⟩
  by_cases h8 : c = 'Í'
  · subst h8; exact Or.inr ⟨('Í', 'I'), by decide, rfl, by decide⟩
  by_cases h9 : c = 'Ó'
  · subst h9; exact Or.inr ⟨('Ó', 'O'), by decide, rfl, by decide⟩
  by_cases h10 : c = 'Ú'
  · subst h10; exact Or.inr ⟨('Ú', 'U'), by decide, rfl, by decide⟩
  by_cases h11 : c = 'ñ'
  · subst h11; exact Or.inr ⟨('ñ', 'n'), by decide, rfl, by decide⟩
  by_cases h12 : c = 'Ñ'
  · subst h12; exact Or.inr ⟨('Ñ', 'N'), by decide, rfl, by decide⟩
  by_cases h13 : c = 'ü'
  · subst h13; exact Or.inr ⟨('ü', 'u'), by decide, rfl, by decide⟩
  by_cases h14 : c = 'Ü'
  · subst h14; exact Or.inr ⟨('Ü', 'U'), by decide, rfl, by decide⟩
  refine Or.inl ⟨?_, ?_⟩
  · simp only [reemplazarChar, if_neg h1, if_neg h2, if_neg h3, if_neg h4, if_neg h5,
      if_neg h6, if_neg h7, if_neg h8, if_neg h9, if_neg h10, if_neg h11, if_neg h12,
      if_neg h13, if_neg h14]
  · intro hT
    rcases enTabla_exists hT with ⟨p, hp, he⟩
    subst he
    fin_cases hp <;> simp_all

theorem tabla_word : ∀ p ∈ reemplazos, pyIsWord p.1 = true := by decide

theorem tabla_valores_libre : ∀ p ∈ reemplazos, ¬ enTabla p.2.toNat := by decide

theorem reemplazarChar_no_tabla (e : Char) : ¬ enTabla (reemplazarChar e).toNat := by
  rcases reemplazarChar_spec e with ⟨hid, hnt⟩ | ⟨p, hp, _, he⟩
  · rw [hid]; exact hnt
  · rw [he]; exact tabla_valores_libre p hp

theorem reemplazarChar_id_of_no_tabla {a : Char} (hT : ¬ enTabla a.toNat) :
    reemplazarChar a = a := by
  rcases reemplazarChar_spec a with ⟨hid, _⟩ | ⟨p, hp, hpat, _⟩
  · exact hid
  · exact absurd (hpat ▸ tabla_enTabla p hp) hT

theorem reemplazarChar_id_of_no_word {a : Char} (hw : pyIsWord a = false) :
    reemplazarChar a = a := by
  rcases reemplazarChar_spec a with ⟨hid, _⟩ | ⟨p, hp, hpat, _⟩
  · exact hid
  · rw [hpat, tabla_word p hp] at hw
    cases hw

theorem mem_colapsarAux {p : Char → Bool} {r c : Char} :
    ∀ {l : List Char} {b : Bool}, c ∈ colapsarAux p r b l →
      c = r ∨ (c ∈ l ∧ p c = false) := by
  intro l
  induction l with
  | nil => intro b h; simp [colapsarAux] at h
  | cons a as ih =>
    intro b h
    by_cases hpa : p a = true
    · cases b with
      | true =>
        have h' : c ∈ colapsarAux p r true as := by simpa [colapsarAux, hpa] using h
        rcases ih h' with h1 | ⟨h2, h3⟩
        · exact Or.inl h1
        · exact Or.inr ⟨List.mem_cons_of_mem _ h2, h3⟩
      | false =>
        have h' : c ∈ r :: colapsarAux p r true as := by simpa [colapsarAux, hpa] using h
        rcases List.mem_cons.mp h' with rfl | h''
        · exact Or.inl rfl
        · rcases ih h'' with h1 | ⟨h2, h3⟩
          · exact Or.inl h1
          · exact Or.inr ⟨List.mem_cons_of_mem _ h2, h3⟩
    · have hpa' : p a = false := by simpa using hpa
      have h' : c ∈ a :: colapsarAux p r false as := by simpa [colapsarAux, hpa'] using h
      rcases List.mem_cons.mp h' with rfl | h''
      · exact Or.inr ⟨List.mem_cons_self _ _, hpa'⟩
      · rcases ih h'' with h1 | ⟨h2, h3⟩
        · exact Or.inl h1
        · exact Or.inr ⟨List.mem_cons_of_mem _ h2, h3⟩

theorem mem_colapsarAux_of {p : Char → Bool} {r c : Char} (hc : p c = false) :
    ∀ {l : List Char} {b : Bool}, c ∈ l → c ∈ colapsarAux p r b l := by
  intro l
  induction l with
  | nil => intro b h; exact absurd h (List.not_mem_nil c)
  | cons a as ih =>
    intro b h
    by_cases hpa : p a = true
    · have hca : c ≠ a := fun he => by rw [he, hpa] at hc; cases hc
      have h' : c ∈ as := (List.mem_cons.mp h).resolve_left hca
      cases b with
      | true => simpa [colapsarAux, hpa] using ih h'
      | false =>
        have := ih (b := true) h'
        simp only [colapsarAux, hpa, if_true]
        exact List.mem_cons_of_mem _ this
    · have hpa' : p a = false := by simpa using hpa
      simp only [colapsarAux, hpa', Bool.false_eq_true, if_false]
      rcases List.mem_cons.mp h with rfl | h'
      · exact List.mem_cons_self _ _
      · exact List.mem_cons_of_mem _ (ih h')

theorem colapsarAux_id {p : Char → Bool} {r : Char} :
    ∀ {l : List Char} {b : Bool}, (∀ c ∈ l, p c = false) → colapsarAux p r b l = l := by
  intro l
  induction l with
  | nil => intro b _; cases b <;> rfl
  | cons a as ih =>
    intro b h
    have hpa : p a = false := h a (List.mem_cons_self _ _)
    simp only [colapsarAux, hpa, Bool.false_eq_true, if_false]
    rw [ih fun c hc => h c (List.mem_cons_of_mem _ hc)]

theorem head_colapsarAux_true {p : Char → Bool} {r : Char} :
    ∀ {l : List Char} {c : Char}, (colapsarAux p r true l).head? = some c →
      p c = false := by
  intro l
  induction l with
  | nil => intro c h; cases h
  | cons a as ih =>
    intro c h
    by_cases hpa : p a = true
    · rw [show colapsarAux p r true (a :: as) = colapsarAux p r true as by
        simp [colapsarAux, hpa]] at h
      exact ih h
    · have hpa' : p a = false := by simpa using hpa
      rw [show colapsarAux p r true (a :: as) = a :: colapsarAux p r false as by
        simp [colapsarAux, hpa']] at h
      cases h
      exact hpa'

theorem chain_colapsarAux {p : Char → Bool} {r : Char}
    (hp : ∀ x, p x = true ↔ x = r) :
    ∀ (l : List Char) (b : Bool),
      List.Chain' (fun a c => ¬(a = r ∧ c = r)) (colapsarAux p r b l) := by
  intro l
  induction l with
  | nil => intro b; cases b <;> exact List.chain'_nil
  | cons a as ih =>
    intro b
    by_cases hpa : p a = true
    · cases b with
      | true => simpa [colapsarAux, hpa] using ih true
      | false =>
        rw [show colapsarAux p r false (a :: as) = r :: colapsarAux p r true as by
          simp [colapsarAux, hpa]]
        rw [List.chain'_cons']
        refine ⟨fun y hy he => ?_, ih true⟩
        have := head_colapsarAux_true (Option.mem_def.mp hy)
        rw [(hp y).mpr he.2] at this
        cases this
    · have hpa' : p a = false := by simpa using hpa
      rw [show colapsarAux p r b (a :: as) = a :: colapsarAux p r false as by
        cases b <;> simp [colapsarAux, hpa']]
      rw [List.chain'_cons']
      refine ⟨fun y hy he => ?_, ih false⟩
      exact absurd ((hp a).mpr he.1) (by simp [hpa'])

theorem mem_dropWhile_of {p : Char → Bool} {c : Char} (hc : p c = false) :
    ∀ {l : List Char}, c ∈ l → c ∈ l.dropWhile p := by
  intro l
  induction l with
  | nil => intro h; exact absurd h (List.not_mem_nil c)
  | cons a as ih =>
    intro h
    by_cases hpa : p a = true
    · rcases List.mem_cons.mp h with rfl | h'
      · rw [hc] at hpa; cases hpa
      · simpa [List.dropWhile, hpa] using ih h'
    · have hpa' : p a = false := by simpa using hpa
      simpa [List.dropWhile, hpa'] using h

theorem head_dropWhile {p : Char → Bool} :
    ∀ {l : List Char} {c : Char}, (l.dropWhile p).head? = some c → p c = false := by
  intro l
  induction l with
  | nil => intro c h; cases h
  | cons a as ih =>
    intro c h
    by_cases hpa : p a = true
    · rw [show (a :: as).dropWhile p = as.dropWhile p by simp [List.dropWhile, hpa]] at h
      exact ih h
    · have hpa' : p a = false := by simpa using hpa
      rw [show (a :: as).dropWhile p = a :: as by simp [List.dropWhile, hpa']] at h
      cases h
      exact hpa'

theorem stripChars_prefijo (p : Char → Bool) (l : List Char) :
    stripChars p l <+: l.dropWhile p := by
  unfold stripChars
  have h2 := List.dropWhile_suffix (l := (l.dropWhile p).reverse) p
  have h3 := List.reverse_prefix.mpr h2
  rwa [List.reverse_reverse] at h3

theorem stripChars_infijo (p : Char → Bool) (l : List Char) :
    stripChars p l <:+: l := by
  rcases stripChars_prefijo p l with ⟨t, ht⟩
  rcases List.dropWhile_suffix (l := l) p with ⟨s, hs⟩
  exact ⟨s, t, by rw [List.append_assoc, ht, hs]⟩

theorem mem_stripChars {p : Char → Bool} {l : List Char} {c : Char}
    (h : c ∈ stripChars p l) : c ∈ l :=
  (stripChars_infijo p l).sublist.subset h

theorem mem_stripChars_of {p : Char → Bool} {c : Char} (hc : p c = false)
    {l : List Char} (h : c ∈ l) : c ∈ stripChars p l := by
  unfold stripChars
  rw [List.mem_reverse]
  apply mem_dropWhile_of hc
  rw [List.mem_reverse]
  exact mem_dropWhile_of hc h

theorem head_stripChars {p : Char → Bool} {l : List Char} {c : Char}
    (h : (stripChars p l).head? = some c) : p c = false := by
  rcases stripChars_prefijo p l with ⟨t, ht⟩
  have hh : (l.dropWhile p).head? = some c := by
    rw [← ht, List.head?_append, h]; rfl
  exact head_dropWhile hh

theorem getLast_stripChars {p : Char → Bool} {l : List Char} {c : Char}
    (h : (stripChars p l).getLast? = some c) : p c = false := by
  unfold stripChars at h
  rw [List.getLast?_reverse] at h
  exact head_dropWhile h

theorem dropWhile_id_of_head {p : Char → Bool} :
    ∀ {l : List Char}, (∀ c, l.head? = some c → p c = false) → l.dropWhile p = l
  | [], _ => rfl
  | a :: as, h => by
    have := h a rfl
    simp [List.dropWhile, this]

theorem stripChars_id {p : Char → Bool} {l : List Char}
    (h1 : ∀ c, l.head? = some c → p c = false)
    (h2 : ∀ c, l.getLast? = some c → p c = false) : stripChars p l = l := by
  unfold stripChars
  rw [dropWhile_id_of_head h1]
  rw [dropWhile_id_of_head fun c hc => h2 c (by rwa [List.head?_reverse] at hc)]
  exact List.reverse_reverse l

theorem stripChars_all {p : Char → Bool} {l : List Char}
    (h : ∀ c ∈ l, p c = true) : stripChars p l = [] := by
  unfold stripChars
  rw [List.dropWhile_eq_nil_iff.mpr h]
  rfl

theorem colapsarAux_id_chain {p : Char → Bool} {r : Char}
    (hp : ∀ x, p x = true ↔ x = r) :
    ∀ {l : List Char} {b : Bool},
      List.Chain' (fun a c => ¬(a = r ∧ c = r)) l →
      (b = true → ∀ c, l.head? = some c → c ≠ r) → colapsarAux p r b l = l := by
  intro l
  induction l with
  | nil => intro b _ _; cases b <;> rfl
  | cons a as ih =>
    intro b hch hb
    by_cases hpa : p a = true
    · have ha : a = r := (hp a).mp hpa
      cases b with
      | true => exact absurd ha (hb rfl a rfl)
      | false =>
        rw [show colapsarAux p r false (a :: as) = r :: colapsarAux p r true as by
          simp [colapsarAux, hpa]]
        rw [ha]
        congr 1
        apply ih (List.chain'_cons'.mp hch).2
        intro _ c hc he
        exact (List.chain'_cons'.mp hch).1 c (Option.mem_def.mpr hc) ⟨ha, he⟩
    · have hpa' : p a = false := by simpa using hpa
      rw [show colapsarAux p r b (a :: as) = a :: colapsarAux p r false as by
        cases b <;> simp [colapsarAux, hpa']]
      congr 1
      exact ih (List.chain'_cons'.mp hch).2 fun hfalse => Bool.noConfusion hfalse

/-! ## Characterization of `slugify` outputs -/

theorem slugifyL_eq (texto : List Char) :
    slugifyL texto =
      stripChars (fun c => c == '-')
        (colapsar (fun c => c == '-') '-'
          (colapsar (fun c => pyIsSpace c || c == '_') '-'
            ((normalizado texto).filter fun c => pyIsWord c || pyIsSpace c || c == '-'))) :=
  rfl

theorem slug_mem {s : List Char} {c : Char} (h : c ∈ slugifyL s) :
    c = '-' ∨ (pyIsWord c = true ∧ c ≠ '_' ∧ pyIsSpace c = false ∧ pyLower c = c ∧
      ¬ enTabla c.toNat) := by
  rw [slugifyL_eq] at h
  have h5 := mem_stripChars h
  rcases mem_colapsarAux h5 with rfl | ⟨h4, hne5⟩
  · exact Or.inl rfl
  · have hcg : c ≠ '-' := by simpa using hne5
    rcases mem_colapsarAux h4 with he | ⟨h3, hne4⟩
    · exact absurd he hcg
    · have hs : pyIsSpace c = false := by
        cases hx : pyIsSpace c with
        | false => rfl
        | true => rw [hx] at hne4; cases hne4
      have hu : c ≠ '_' := by
        intro he
        rw [he] at hne4
        simp at hne4
      rcases List.mem_filter.mp h3 with ⟨h2, hpred⟩
      have hw : pyIsWord c = true := by
        rcases (by simpa using hpred :
            (pyIsWord c = true ∨ pyIsSpace c = true) ∨ c = '-') with (hx | hx) | hx
        · exact hx
        · rw [hs] at hx; cases hx
        · exact absurd hx hcg
      have h2' := mem_stripChars h2
      rcases List.mem_map.mp h2' with ⟨d, hd, hde⟩
      have hlow : pyLower c = c := by rw [← hde, pyLower_idem]
      have htab : ¬ enTabla c.toNat := by
        rcases List.mem_map.mp hd with ⟨e, _, hre⟩
        rw [← hde, ← hre]
        exact pyLower_tabla (reemplazarChar_no_tabla e)
      exact Or.inr ⟨hw, hu, hs, hlow, htab⟩

theorem chain_colapsar {p : Char → Bool} {r : Char}
    (hp : ∀ x, p x = true ↔ x = r) (l : List Char) :
    List.Chain' (fun a c => ¬(a = r ∧ c = r)) (colapsar p r l) :=
  chain_colapsarAux hp l false

theorem chain_stripChars {R : Char → Char → Prop} {p : Char → Bool} {l : List Char}
    (h : List.Chain' R l) : List.Chain' R (stripChars p l) :=
  h.infix (stripChars_infijo p l)

theorem slug_chain (s : List Char) :
    List.Chain' (fun a c => ¬(a = '-' ∧ c = '-')) (slugifyL s) := by
  rw [slugifyL_eq]
  exact chain_stripChars (chain_colapsar (fun x => by simp) _)

theorem slug_head {s : List Char} {c : Char}
    (h : (slugifyL s).head? = some c) : c ≠ '-' := by
  rw [slugifyL_eq] at h
  simpa using head_stripChars h

theorem slug_last {s : List Char} {c : Char}
    (h : (slugifyL s).getLast? = some c) : c ≠ '-' := by
  rw [slugifyL_eq] at h
  simpa using getLast_stripChars h

theorem slug_no_vacio {s : List Char}
    (h : tieneContenidoAlfanumerico (normalizado s) = true) : slugifyL s ≠ [] := by
  rcases List.any_eq_true.mp h with ⟨c, hm, hc⟩
  have hc' : pyIsWord c = true ∧ ¬(c = '_') := by simpa using hc
  have hw : pyIsWord c = true := hc'.1
  have hu : c ≠ '_' := hc'.2
  have h3 : c ∈ (normalizado s).filter fun c => pyIsWord c || pyIsSpace c || c == '-' :=
    List.mem_filter.mpr ⟨hm, by simp [hw]⟩
  have hc4pred : (pyIsSpace c || c == '_') = false := by
    simp [word_no_espacio hw, hu]
  have h4 := mem_colapsarAux_of (p := fun c => pyIsSpace c || c == '_') (r := '-')
    hc4pred (b := false) h3
  have hc5pred : (c == '-') = false := by simp [word_ne_guion hw]
  have h5 := mem_colapsarAux_of (p := fun c => c == '-') (r := '-')
    hc5pred (b := false) h4
  have h6 := mem_stripChars_of (p := fun c => c == '-') (c := c) hc5pred h5
  rw [slugifyL_eq]
  exact List.ne_nil_of_mem h6

theorem slug_vacio {s : List Char}
    (h : tieneContenidoAlfanumerico (normalizado s) = false) : slugifyL s = [] := by
  have hall : ∀ c ∈ normalizado s, ¬(pyIsWord c = true ∧ c ≠ '_') := by
    intro c hc hand
    have : tieneContenidoAlfanumerico (normalizado s) = true :=
      List.any_eq_true.mpr ⟨c, hc, by simp [hand.1, hand.2]⟩
    rw [h] at this
    cases this
  rw [slugifyL_eq]
  apply stripChars_all
  intro c hc5
  rcases mem_colapsarAux hc5 with rfl | ⟨hc4, hne⟩
  · simp
  · exfalso
    rcases mem_colapsarAux hc4 with rfl | ⟨hc3, hne4⟩
    · simp at hne
    · rcases List.mem_filter.mp hc3 with ⟨hcn, hpred⟩
      have hnw := hall c hcn
      rcases (by simpa using hpred :
          (pyIsWord c = true ∨ pyIsSpace c = true) ∨ c = '-') with (hx | hx) | hx
      · have hcu : c = '_' := by
          by_contra hcu
          exact hnw ⟨hx, hcu⟩
        rw [hcu] at hne4
        simp at hne4
      · rw [hx] at hne4
        simp at hne4
      · rw [hx] at hne
        simp at hne

theorem slug_fijo {l : List Char}
    (hmem : ∀ c ∈ l, c = '-' ∨ (pyIsWord c = true ∧ c ≠ '_' ∧ pyIsSpace c = false ∧
      pyLower c = c ∧ ¬ enTabla c.toNat))
    (hchain : List.Chain' (fun a c => ¬(a = '-' ∧ c = '-')) l)
    (hhead : ∀ c, l.head? = some c → c ≠ '-')
    (hlast : ∀ c, l.getLast? = some c → c ≠ '-') :
    slugifyL l = l := by
  have hnospace : ∀ c ∈ l, pyIsSpace c = false := by
    intro c hc
    rcases hmem c hc with rfl | ⟨_, _, hs, _, _⟩
    · decide
    · exact hs
  have e1 : aplicarReemplazos l = l := by
    unfold aplicarReemplazos
    have hid : ∀ a ∈ l, reemplazarChar a = id a := by
      intro a ha
      rcases hmem a ha with rfl | ⟨_, _, _, _, ht⟩
      · decide
      · exact reemplazarChar_id_of_no_tabla ht
    rw [List.map_congr_left hid, List.map_id]
  have e2 : l.map pyLower = l := by
    have hid : ∀ a ∈ l, pyLower a = id a := by
      intro a ha
      rcases hmem a ha with rfl | ⟨_, _, _, hl, _⟩
      · decide
      · exact hl
    rw [List.map_congr_left hid, List.map_id]
  have e3 : stripChars pyIsSpace l = l :=
    stripChars_id (fun c hc => hnospace c (List.mem_of_mem_head? hc))
      (fun c hc => hnospace c (by
        rw [← List.head?_reverse] at hc
        exact List.mem_reverse.mp (List.mem_of_mem_head? hc)))
  have e4 : (l.filter fun c => pyIsWord c || pyIsSpace c || c == '-') = l := by
    rw [List.filter_eq_self]
    intro a ha
    rcases hmem a ha with rfl | ⟨hw, _, _, _, _⟩
    · simp
    · simp [hw]
  have e5 : colapsar (fun c => pyIsSpace c || c == '_') '-' l = l := by
    apply colapsarAux_id
    intro c hc
    rcases hmem c hc with rfl | ⟨_, hu, hs, _, _⟩
    · decide
    · simp [hs, hu]
  have e6 : colapsar (fun c => c == '-') '-' l = l :=
    colapsarAux_id_chain (fun x => by simp) hchain fun hf => Bool.noConfusion hf
  have e7 : stripChars (fun c => c == '-') l = l :=
    stripChars_id (fun c hc => by simp [hhead c hc]) (fun c hc => by simp [hlast c hc])
  rw [slugifyL_eq]
  unfold normalizado
  rw [e1, e2, e3, e4, e5, e6, e7]

theorem slug_idem (s : List Char) : slugifyL (slugifyL s) = slugifyL s :=
  slug_fijo (fun _ hc => slug_mem hc) (slug_chain s)
    (fun _ hc => slug_head hc) (fun _ hc => slug_last hc)

/-! ## Lemmas on placeholder substitution -/

theorem replaceGo_skip (pat repl : List Char) :
    ∀ (xs rest : List Char),
      replaceGo pat repl xs.length (xs ++ rest) = replaceGo pat repl 0 rest
  | [], _ => rfl
  | _ :: xs, rest => by
    rw [List.length_cons, List.cons_append]
    exact replaceGo_skip pat repl xs rest

theorem wrapped_ne_nil (k : List Char) : wrapped k ≠ [] := by
  simp [wrapped]

theorem replaceL_match (pat repl : List Char) (h : pat ≠ []) (suffix : List Char) :
    replaceL pat repl (pat ++ suffix) = repl ++ replaceL pat repl suffix := by
  rcases pat with _ | ⟨p, pt⟩
  · exact absurd rfl h
  · unfold replaceL
    rw [List.cons_append]
    show replaceGo (p :: pt) repl 0 (p :: (pt ++ suffix)) = _
    rw [show replaceGo (p :: pt) repl 0 (p :: (pt ++ suffix)) =
        if (p :: pt).isPrefixOf (p :: (pt ++ suffix)) ∧ (p :: pt) ≠ [] then
          repl ++ replaceGo (p :: pt) repl ((p :: pt).length - 1) (pt ++ suffix)
        else p :: replaceGo (p :: pt) repl 0 (pt ++ suffix) from rfl]
    rw [if_pos]
    · rw [show (p :: pt).length - 1 = pt.length from rfl, replaceGo_skip]
    · constructor
      · rw [ List.isPrefixOf_iff_prefix, show p :: (pt ++ suffix) = (p :: pt) ++ suffix
          from rfl]
        exact List.prefix_append _ _
      · simp

theorem replaceL_cons_no_match {pat : List Char} (repl : List Char) {c : Char}
    {cs : List Char} (h : pat.isPrefixOf (c :: cs) = false) :
    replaceL pat repl (c :: cs) = c :: replaceL pat repl cs := by
  unfold replaceL
  rw [show replaceGo pat repl 0 (c :: cs) =
      if pat.isPrefixOf (c :: cs) ∧ pat ≠ [] then
        repl ++ replaceGo pat repl (pat.length - 1) cs
      else c :: replaceGo pat repl 0 cs from rfl]
  rw [if_neg]
  intro hand
  rw [h] at hand
  cases hand.1

theorem replaceL_no_occurs {pat repl : List Char} :
    ∀ {l : List Char}, occursIn pat l = false → replaceL pat repl l = l := by
  intro l
  induction l with
  | nil => intro _; rfl
  | cons c cs ih =>
    intro h
    have h' : pat.isPrefixOf (c :: cs) = false ∧ occursIn pat cs = false := by
      simpa [occursIn] using h
    rw [replaceL_cons_no_match repl h'.1, ih h'.2]

theorem sustituir_cons (body : List Char) (kv : List Char × List Char)
    (rest : List (List Char × List Char)) :
    sustituir_placeholders body (kv :: rest) =
      sustituir_placeholders (replaceL (wrapped kv.1) kv.2 body) rest := rfl

theorem sustituir_clave_sola (k v : List Char) :
    sustituir_placeholders (wrapped k) [(k, v)] = v := by
  show replaceL (wrapped k) v (wrapped k) = v
  have h := replaceL_match (wrapped k) v (wrapped_ne_nil k) []
  rw [List.append_nil] at h
  rw [h, show replaceL (wrapped k) v [] = [] from rfl, List.append_nil]

theorem sustituir_identidad :
    ∀ (vars : List (List Char × List Char)) (body : List Char),
      (∀ kv ∈ vars, occursIn (wrapped kv.1) body = false) →
      sustituir_placeholders body vars = body
  | [], _, _ => rfl
  | kv :: vars, body, h => by
    rw [sustituir_cons, replaceL_no_occurs (h kv (List.mem_cons_self _ _))]
    exact sustituir_identidad vars body fun q hq => h q (List.mem_cons_of_mem _ hq)

/-! ## Token transparency: brace-free keys cannot touch a distinct token -/

theorem sinLlaves_mem {l : List Char} (h : sinLlaves l = true) {c : Char}
    (hc : c ∈ l) : c ≠ lbrace ∧ c ≠ rbrace := by
  rw [sinLlaves, List.all_eq_true] at h
  have h2 := h c hc
  simp only [Bool.not_eq_true', Bool.or_eq_false_iff, beq_eq_false_iff_ne] at h2
  exact h2

theorem sinLlaves_tail {c : Char} {l : List Char} (h : sinLlaves (c :: l) = true) :
    sinLlaves l = true := by
  rw [sinLlaves, List.all_cons, Bool.and_eq_true] at h
  rw [sinLlaves]
  exact h.2

theorem isPrefixOf_cons_false {a c : Char} {t : List Char} (cs : List Char)
    (hc : c ≠ a) : (a :: t).isPrefixOf (c :: cs) = false := by
  have hb : (a == c) = false := by
    cases hbe : a == c
    · rfl
    · exact absurd (eq_of_beq hbe).symm hc
  show ((a == c) && t.isPrefixOf cs) = false
  rw [hb, Bool.false_and]

theorem claves_no_prefijo :
    ∀ (k u : List Char) (s : List Char), sinLlaves k = true → sinLlaves u = true →
      k ≠ u → (k ++ [rbrace, rbrace]).isPrefixOf (u ++ rbrace :: rbrace :: s) = false
  | [], [], _, _, _, hne => absurd rfl hne
  | [], c :: u', s, _, hu, _ => by
    have hc : c ≠ rbrace := (sinLlaves_mem hu (List.mem_cons_self c u')).2
    rw [List.nil_append, List.cons_append]
    exact isPrefixOf_cons_false _ hc
  | a :: k', [], s, hk, _, _ => by
    have ha : a ≠ rbrace := (sinLlaves_mem hk (List.mem_cons_self a k')).2
    rw [List.cons_append, List.nil_append]
    show ((a == rbrace) && (k' ++ [rbrace, rbrace]).isPrefixOf (rbrace :: s)) = false
    have hb : (a == rbrace) = false := by
      cases hbe : a == rbrace
      · rfl
      · exact absurd (eq_of_beq hbe) ha
    rw [hb, Bool.false_and]
  | a :: k', b :: u', s, hk, hu, hne => by
    rw [List.cons_append, List.cons_append]
    show ((a == b) && (k' ++ [rbrace, rbrace]).isPrefixOf (u' ++ rbrace :: rbrace :: s)) =
      false
    by_cases hab : a = b
    · subst hab
      have hne' : k' ≠ u' := fun he => hne (by rw [he])
      rw [claves_no_prefijo k' u' s (sinLlaves_tail hk) (sinLlaves_tail hu) hne',
        Bool.and_false]
    · have hb : (a == b) = false := by
        cases hbe : a == b
        · rfl
        · exact absurd (eq_of_beq hbe) hab
      rw [hb, Bool.false_and]

theorem prefijo_append_split {xs : List Char} :
    ∀ (ys zs : List Char), xs <+: ys ++ zs →
      xs <+: ys ∨ ∃ c, xs = ys ++ c ∧ c <+: zs := by
  induction xs with
  | nil => intro ys zs _; exact Or.inl ( List.nil_prefix)
  | cons x xs ih =>
    intro ys zs h
    match ys with
    | [] => exact Or.inr ⟨x :: xs, rfl, h⟩
    | y :: ys' =>
      rw [List.cons_append, List.cons_prefix_cons] at h
      obtain ⟨rfl, h2⟩ := h
      rcases ih ys' zs h2 with h3 | ⟨c, rfl, h4⟩
      · exact Or.inl (List.cons_prefix_cons.mpr ⟨rfl, h3⟩)
      · exact Or.inr ⟨c, by rw [List.cons_append], h4⟩

theorem wrapped_cons (k : List Char) :
    wrapped k = lbrace :: lbrace :: (k ++ [rbrace, rbrace]) := rfl

theorem wrapped_append (u b : List Char) :
    wrapped u ++ b = lbrace :: lbrace :: (u ++ rbrace :: rbrace :: b) := by
  rw [wrapped_cons, List.cons_append, List.cons_append, List.append_assoc]
  rfl

theorem sufijo_token_no_prefijo {k u : List Char} (hk : sinLlaves k = true)
    (b2 : List Char) :
    ∀ (pre cola : List Char), pre ≠ [] → cola ≠ [] →
      pre ++ cola = wrapped k → ¬ cola <+: wrapped u ++ b2 := by
  intro pre cola hpre hcola heq hpref
  rcases cola with _ | ⟨t, ts⟩
  · exact hcola rfl
  rw [wrapped_append, List.cons_prefix_cons] at hpref
  obtain ⟨rfl, hts⟩ := hpref
  rcases pre with _ | ⟨q, pre'⟩
  · exact hpre rfl
  rcases pre' with _ | ⟨r, pre''⟩
  · rw [wrapped_cons] at heq
    simp only [List.cons_append, List.nil_append, List.cons.injEq] at heq
    obtain ⟨-, -, rfl⟩ := heq
    rcases k with _ | ⟨a, k'⟩
    · rw [List.nil_append, List.cons_prefix_cons] at hts
      exact absurd hts.1 (by decide)
    · rw [List.cons_append, List.cons_prefix_cons] at hts
      exact absurd hts.1 ((sinLlaves_mem hk (List.mem_cons_self a k')).1)
  · rw [wrapped_cons] at heq
    simp only [List.cons_append, List.cons.injEq] at heq
    obtain ⟨-, -, hrest⟩ := heq
    have hmem : lbrace ∈ k ++ [rbrace, rbrace] := by
      rw [← hrest]
      exact List.mem_append_right _ (List.mem_cons_self _ _)
    rcases List.mem_append.mp hmem with hmk | hmr
    · exact absurd rfl (sinLlaves_mem hk hmk).1
    · simp at hmr
      exact absurd hmr (by decide)

theorem replaceL_sin_cabeza {a : Char} {t : List Char} (v : List Char) :
    ∀ (w : List Char), (∀ c ∈ w, c ≠ a) → ∀ (s : List Char),
      replaceL (a :: t) v (w ++ s) = w ++ replaceL (a :: t) v s
  | [], _, _ => rfl
  | c :: w', h, s => by
    rw [List.cons_append,
      replaceL_cons_no_match v (isPrefixOf_cons_false _ (h c (List.mem_cons_self c w'))),
      replaceL_sin_cabeza v w' (fun d hd => h d (List.mem_cons_of_mem _ hd)) s,
      List.cons_append]

theorem replaceL_token_inicio {k u : List Char} (v : List Char)
    (hk : sinLlaves k = true) (hu : sinLlaves u = true) (hne : k ≠ u) (s : List Char) :
    replaceL (wrapped k) v (wrapped u ++ s) = wrapped u ++ replaceL (wrapped k) v s := by
  have hNP := claves_no_prefijo k u s hk hu hne
  have h0 : (wrapped k).isPrefixOf (lbrace :: lbrace :: (u ++ rbrace :: rbrace :: s)) =
      false := by
    rw [wrapped_cons]
    show ((lbrace == lbrace) && ((lbrace == lbrace) &&
      (k ++ [rbrace, rbrace]).isPrefixOf (u ++ rbrace :: rbrace :: s))) = false
    rw [hNP, Bool.and_false, Bool.and_false]
  have h1 : (wrapped k).isPrefixOf (lbrace :: (u ++ rbrace :: rbrace :: s)) = false := by
    rw [wrapped_cons]
    show ((lbrace == lbrace) &&
      (lbrace :: (k ++ [rbrace, rbrace])).isPrefixOf (u ++ rbrace :: rbrace :: s)) = false
    rcases u with _ | ⟨c, u'⟩
    · rw [List.nil_append, isPrefixOf_cons_false _ (by decide : rbrace ≠ lbrace),
        Bool.and_false]
    · rw [List.cons_append,
        isPrefixOf_cons_false _ ((sinLlaves_mem hu (List.mem_cons_self c u')).1),
        Bool.and_false]
  rw [wrapped_append, replaceL_cons_no_match v h0, replaceL_cons_no_match v h1]
  have hw : replaceL (wrapped k) v (u ++ rbrace :: rbrace :: s) =
      u ++ replaceL (wrapped k) v (rbrace :: rbrace :: s) := by
    rw [wrapped_cons]
    exact replaceL_sin_cabeza v u (fun c hc => (sinLlaves_mem hu hc).1) _
  rw [hw]
  have h2 : replaceL (wrapped k) v (rbrace :: rbrace :: s) =
      rbrace :: rbrace :: replaceL (wrapped k) v s := by
    rw [wrapped_cons,
      replaceL_cons_no_match v (isPrefixOf_cons_false _ (by decide : rbrace ≠ lbrace)),
      replaceL_cons_no_match v (isPrefixOf_cons_false _ (by decide : rbrace ≠ lbrace))]
  rw [h2, wrapped_append]

theorem replaceGo_token {k u : List Char} (v : List Char) (hk : sinLlaves k = true)
    (hu : sinLlaves u = true) (hne : k ≠ u) (b2 : List Char) :
    ∀ (b1 : List Char) (n : Nat), n ≤ b1.length →
      replaceGo (wrapped k) v n (b1 ++ wrapped u ++ b2) =
        replaceGo (wrapped k) v n b1 ++ wrapped u ++ replaceGo (wrapped k) v 0 b2 := by
  intro b1
  induction b1 with
  | nil =>
    intro n hn
    have h0 : n = 0 := Nat.le_zero.mp hn
    subst h0
    rw [List.nil_append]
    show replaceL (wrapped k) v (wrapped u ++ b2) =
      replaceGo (wrapped k) v 0 ([] : List Char) ++ wrapped u ++ replaceL (wrapped k) v b2
    rw [replaceL_token_inicio v hk hu hne b2]
    rfl
  | cons c cs ih =>
    intro n hn
    match n with
    | Nat.succ m =>
      have hm : m ≤ cs.length := Nat.le_of_succ_le_succ (by simpa using hn)
      rw [List.cons_append, List.cons_append]
      show replaceGo (wrapped k) v m ((cs ++ wrapped u) ++ b2) =
        replaceGo (wrapped k) v m cs ++ wrapped u ++ replaceGo (wrapped k) v 0 b2
      exact ih m hm
    | 0 =>
      by_cases hp : (wrapped k).isPrefixOf (c :: cs) = true
      · have hpre := List.isPrefixOf_iff_prefix.mp hp
        have hp2 : (wrapped k).isPrefixOf (c :: ((cs ++ wrapped u) ++ b2)) = true := by
          rw [ List.isPrefixOf_iff_prefix]
          rw [show c :: ((cs ++ wrapped u) ++ b2) = (c :: cs) ++ (wrapped u ++ b2) by
            rw [List.cons_append, List.append_assoc]]
          exact hpre.trans (List.prefix_append _ _)
        have hlen : (wrapped k).length - 1 ≤ cs.length := by
          have hle := hpre.length_le
          rw [List.length_cons] at hle
          omega
        rw [List.cons_append, List.cons_append]
        rw [show replaceGo (wrapped k) v 0 (c :: ((cs ++ wrapped u) ++ b2)) =
            if (wrapped k).isPrefixOf (c :: ((cs ++ wrapped u) ++ b2)) ∧ wrapped k ≠ [] then
              v ++ replaceGo (wrapped k) v ((wrapped k).length - 1) ((cs ++ wrapped u) ++ b2)
            else c :: replaceGo (wrapped k) v 0 ((cs ++ wrapped u) ++ b2) from rfl]
        rw [show replaceGo (wrapped k) v 0 (c :: cs) =
            if (wrapped k).isPrefixOf (c :: cs) ∧ wrapped k ≠ [] then
              v ++ replaceGo (wrapped k) v ((wrapped k).length - 1) cs
            else c :: replaceGo (wrapped k) v 0 cs from rfl]
        rw [if_pos ⟨hp2, wrapped_ne_nil k⟩, if_pos ⟨hp, wrapped_ne_nil k⟩]
        rw [show (cs ++ wrapped u) ++ b2 = cs ++ wrapped u ++ b2 from rfl]
        rw [ih ((wrapped k).length - 1) hlen]
        simp [List.append_assoc]
      · have hp' : (wrapped k).isPrefixOf (c :: cs) = false := by
          cases hx : (wrapped k).isPrefixOf (c :: cs) with
          | false => rfl
          | true => exact absurd hx hp
        have hfull : (wrapped k).isPrefixOf (c :: ((cs ++ wrapped u) ++ b2)) = false := by
          cases hfe : (wrapped k).isPrefixOf (c :: ((cs ++ wrapped u) ++ b2)) with
          | false => rfl
          | true =>
            exfalso
            have hgen := List.isPrefixOf_iff_prefix.mp hfe
            rw [show c :: ((cs ++ wrapped u) ++ b2) = (c :: cs) ++ (wrapped u ++ b2) by
              rw [List.cons_append, List.append_assoc]] at hgen
            rcases prefijo_append_split (c :: cs) (wrapped u ++ b2) hgen with
              hca | ⟨cola, heq, hcola⟩
            · rw [← List.isPrefixOf_iff_prefix, hp'] at hca
              cases hca
            · rcases cola with _ | ⟨t, ts⟩
              · rw [List.append_nil] at heq
                have hrf : (wrapped k).isPrefixOf (c :: cs) = true := by
                  rw [heq]
                  rw [ List.isPrefixOf_iff_prefix]
                rw [hp'] at hrf
                cases hrf
              · exact sufijo_token_no_prefijo hk b2 (c :: cs) (t :: ts)
                  (by simp) (by simp) heq.symm hcola
        rw [List.cons_append, List.cons_append]
        show replaceL (wrapped k) v (c :: ((cs ++ wrapped u) ++ b2)) =
          replaceL (wrapped k) v (c :: cs) ++ wrapped u ++ replaceGo (wrapped k) v 0 b2
        rw [replaceL_cons_no_match v hfull, replaceL_cons_no_match v hp']
        show c :: replaceGo (wrapped k) v 0 ((cs ++ wrapped u) ++ b2) =
          c :: (replaceGo (wrapped k) v 0 cs ++ wrapped u ++ replaceGo (wrapped k) v 0 b2)
        rw [show (cs ++ wrapped u) ++ b2 = cs ++ wrapped u ++ b2 from rfl]
        rw [ih 0 (Nat.zero_le _)]

theorem replaceL_token {k u : List Char} (v : List Char) (hk : sinLlaves k = true)
    (hu : sinLlaves u = true) (hne : k ≠ u) (b1 b2 : List Char) :
    replaceL (wrapped k) v (b1 ++ wrapped u ++ b2) =
      replaceL (wrapped k) v b1 ++ wrapped u ++ replaceL (wrapped k) v b2 :=
  replaceGo_token v hk hu hne b2 b1 0 (Nat.zero_le _)

theorem sustituir_token {u : List Char} (hu : sinLlaves u = true) :
    ∀ (vars : List (List Char × List Char)) (b1 b2 : List Char),
      (∀ kv ∈ vars, sinLlaves kv.1 = true ∧ kv.1 ≠ u) →
      sustituir_placeholders (b1 ++ wrapped u ++ b2) vars =
        sustituir_placeholders b1 vars ++ wrapped u ++ sustituir_placeholders b2 vars
  | [], _, _, _ => rfl
  | kv :: rest, b1, b2, h => by
    rw [sustituir_cons, sustituir_cons, sustituir_cons]
    have hkv := h kv (List.mem_cons_self kv rest)
    rw [replaceL_token kv.2 hkv.1 hu hkv.2 b1 b2]
    exact sustituir_token hu rest _ _ (fun q hq => h q (List.mem_cons_of_mem _ hq))

/-! ## Lemmas on the file-system model and `crear_proyecto` -/

theorem fsExists_mkdirFS (fs : FS) (q p : Ruta) :
    fsExists (mkdirFS fs q) p = (decide (p = q) || fsExists fs p) := by
  unfold fsExists mkdirFS fsFileExists
  by_cases h : p = q
  · simp [h]
  · simp [h, List.mem_cons]

theorem fsExists_writeFile (fs : FS) (q : Ruta) (c : List Char) (p : Ruta) :
    fsExists (writeFile fs q c) p = (decide (q = p) || fsExists fs p) := by
  simp only [fsExists, writeFile, fsFileExists, List.any_cons]
  rw [Bool.or_left_comm]

theorem fsExists_copiar (origen destino : Ruta) (vars : List (List Char × List Char))
    (fs : FS) (p : Ruta) :
    fsExists (copiar_plantilla origen destino vars fs) p =
      (decide (destino = p) || fsExists fs p) := by
  unfold copiar_plantilla
  exact fsExists_writeFile fs destino _ p

theorem readFileD_writeFile (fs : FS) (q : Ruta) (c : List Char) (p : Ruta) :
    readFileD (writeFile fs q c) p = if q = p then c else readFileD fs p := by
  by_cases h : q = p
  · simp [readFileD, writeFile, List.find?_cons, h]
  · simp [readFileD, writeFile, List.find?_cons, h]

theorem readFileD_copiar (origen destino : Ruta) (vars : List (List Char × List Char))
    (fs : FS) (p : Ruta) (h : destino ≠ p) :
    readFileD (copiar_plantilla origen destino vars fs) p = readFileD fs p := by
  unfold copiar_plantilla
  rw [readFileD_writeFile, if_neg h]

theorem verificar_none {tdir : Ruta} {fs : FS} (h : fsExists fs tdir = true) :
    (verificar_plantillas tdir fs).1 = none := by
  simp [verificar_plantillas, h]

theorem crear_ya_existe (nombre autor : List Char) (tipo : String) (base : Ruta)
    (hoy : Fecha) (tdir : Ruta) (fs : FS) (info : InfoTipo)
    (h1 : TIPOS.lookup tipo = some info)
    (h2 : fsExists fs tdir = true)
    (h3 : fsExists fs (pjoin base (String.mk (slugifyL nombre))) = true) :
    crear_proyecto nombre tipo autor base hoy tdir fs =
      (some Err.directorioYaExiste, fs) := by
  unfold crear_proyecto
  rw [h1, verificar_none h2]
  simp only [h3, if_true]

theorem crear_exito (nombre autor : List Char) (tipo : String) (base : Ruta)
    (hoy : Fecha) (tdir : Ruta) (fs : FS) (info : InfoTipo)
    (h1 : TIPOS.lookup tipo = some info)
    (h2 : fsExists fs tdir = true)
    (h3 : fsExists fs (pjoin base (String.mk (slugifyL nombre))) = false) :
    (crear_proyecto nombre tipo autor base hoy tdir fs).1 = none ∧
    fsExists (crear_proyecto nombre tipo autor base hoy tdir fs).2
      (pjoin base (String.mk (slugifyL nombre))) = true ∧
    fsExists (crear_proyecto nombre tipo autor base hoy tdir fs).2 tdir = true := by
  unfold crear_proyecto
  rw [h1, verificar_none h2]
  simp only [h3, Bool.false_eq_true, if_false]
  refine ⟨trivial, ?_, ?_⟩ <;>
    split_ifs <;>
      simp [fsExists_writeFile, fsExists_copiar, fsExists_mkdirFS, h2]

theorem fsExists_ite (c : Prop) [Decidable c] (f1 f2 : FS) (p : Ruta) :
    fsExists (if c then f1 else f2) p = if c then fsExists f1 p else fsExists f2 p := by
  split_ifs <;> rfl

theorem readFileD_ite (c : Prop) [Decidable c] (f1 f2 : FS) (p : Ruta) :
    readFileD (if c then f1 else f2) p = if c then readFileD f1 p else readFileD f2 p := by
  split_ifs <;> rfl

theorem pjoin_no_vacio {s : String} (h : s ≠ "") (p : Ruta) : pjoin p s = p ++ [s] := by
  unfold pjoin
  rw [if_neg h]

theorem append_singleton_ne {a b : Ruta} {x y : String} (h : x ≠ y) :
    a ++ [x] ≠ b ++ [y] := by
  intro he
  have h2 := congrArg List.getLast? he
  rw [List.getLast?_concat, List.getLast?_concat] at h2
  exact h (Option.some.inj h2)

theorem mk_slug_ne_vacia {nombre : List Char} (h : slugifyL nombre ≠ []) :
    String.mk (slugifyL nombre) ≠ "" := by
  intro he
  exact h (congrArg String.data he)

theorem slug_ne_referencias (nombre : List Char) :
    String.mk (slugifyL nombre) ≠ "referencias.bib" := by
  intro he
  have hdata : slugifyL nombre = strL "referencias.bib" := congrArg String.data he
  have hmem : '.' ∈ slugifyL nombre := by
    rw [hdata]
    decide
  rcases slug_mem hmem with he2 | ⟨hw, _⟩
  · exact absurd he2 (by decide)
  · exact absurd hw (by decide)

theorem tex_ne_referencias (slug : List Char) :
    String.mk (slug ++ strL ".tex") ≠ "referencias.bib" := by
  intro he
  have hdata : slug ++ strL ".tex" = strL "referencias.bib" := congrArg String.data he
  have h1 := congrArg List.getLast? hdata
  rw [show strL ".tex" = ['.', 't', 'e'] ++ ['x'] from rfl, ← List.append_assoc,
    List.getLast?_concat] at h1
  exact absurd h1 (by decide)

theorem mk_tex_ne_vacia (slug : List Char) : String.mk (slug ++ strL ".tex") ≠ "" := by
  intro he
  have hdata : slug ++ strL ".tex" = [] := congrArg String.data he
  simp at hdata
  exact absurd hdata.2 (by decide)

/-- Claim C8: when the template store lacks `referencias.bib` but
materialization otherwise proceeds (recognized type, existing store, fresh
target, non-empty slug), the run succeeds and the generated project
contains a `referencias.bib` file whose content is exactly the single
comment line, with no template content mixed in. -/
theorem crear_bib_respaldo (nombre autor : List Char) (tipo : String) (base : Ruta)
    (hoy : Fecha) (tdir : Ruta) (fs : FS) (info : InfoTipo)
    (h1 : TIPOS.lookup tipo = some info)
    (h2 : fsExists fs tdir = true)
    (h3 : fsExists fs (pjoin base (String.mk (slugifyL nombre))) = false)
    (h4 : fsExists fs (pjoin tdir "referencias.bib") = false)
    (h5 : slugifyL nombre ≠ []) :
    (crear_proyecto nombre tipo autor base hoy tdir fs).1 = none ∧
    readFileD (crear_proyecto nombre tipo autor base hoy tdir fs).2
      (pjoin (pjoin base (String.mk (slugifyL nombre))) "referencias.bib") =
      strL "% Referencias bibliográficas\n" := by
  have hslug : String.mk (slugifyL nombre) ≠ "" := mk_slug_ne_vacia h5
  have hdir : pjoin base (String.mk (slugifyL nombre)) =
      base ++ [String.mk (slugifyL nombre)] := pjoin_no_vacio hslug base
  have hbibn : ∀ p : Ruta, pjoin p "referencias.bib" = p ++ ["referencias.bib"] :=
    fun p => pjoin_no_vacio (by decide) p
  have hfign : ∀ p : Ruta, pjoin p "figuras" = p ++ ["figuras"] :=
    fun p => pjoin_no_vacio (by decide) p
  have hmakn : ∀ p : Ruta, pjoin p "Makefile" = p ++ ["Makefile"] :=
    fun p => pjoin_no_vacio (by decide) p
  have hgitn : ∀ p : Ruta, pjoin p ".gitignore" = p ++ [".gitignore"] :=
    fun p => pjoin_no_vacio (by decide) p
  have htexn : ∀ p : Ruta,
      pjoin p (String.mk (slugifyL nombre ++ strL ".tex")) =
        p ++ [String.mk (slugifyL nombre ++ strL ".tex")] :=
    fun p => pjoin_no_vacio (mk_tex_ne_vacia _) p
  have hne_dir_bib : base ++ [String.mk (slugifyL nombre)] ≠ tdir ++ ["referencias.bib"] :=
    append_singleton_ne (slug_ne_referencias nombre)
  have hne_fig_bib : ∀ a b : Ruta, a ++ ["figuras"] ≠ b ++ ["referencias.bib"] :=
    fun a b => append_singleton_ne (by decide)
  have hne_tex_bib : ∀ a b : Ruta,
      a ++ [String.mk (slugifyL nombre ++ strL ".tex")] ≠ b ++ ["referencias.bib"] :=
    fun a b => append_singleton_ne (tex_ne_referencias _)
  have hne_mak_bib : ∀ a b : Ruta, a ++ ["Makefile"] ≠ b ++ ["referencias.bib"] :=
    fun a b => append_singleton_ne (by decide)
  have hne_git_bib : ∀ a b : Ruta, a ++ [".gitignore"] ≠ b ++ ["referencias.bib"] :=
    fun a b => append_singleton_ne (by decide)
  unfold crear_proyecto
  rw [h1, verificar_none h2]
  simp only [h3, Bool.false_eq_true, if_false]
  simp only [copiar_plantilla, hdir, hbibn, hfign, hmakn, hgitn, htexn,
    readFileD_writeFile, readFileD_ite, fsExists_ite, fsExists_writeFile,
    fsExists_mkdirFS, ite_self, hne_dir_bib, hne_fig_bib, hne_tex_bib,
    hne_mak_bib, hne_git_bib, h4, decide_eq_true_eq]
  simp [hne_git_bib _ _, hne_mak_bib _ _, hne_tex_bib _ _, hne_fig_bib _ _,
    hne_dir_bib, h4]
  intro hcon
  exfalso
  rcases hcon with he | he | he
  · have hg := congrArg List.getLast? he
    rw [List.getLast?_concat,
      show ([{ data := slugifyL nombre }, "figuras"] : Ruta) =
        [({ data := slugifyL nombre } : String)] ++ ["figuras"] from rfl,
      ← List.append_assoc, List.getLast?_concat] at hg
    exact absurd (Option.some.inj hg) (by decide)
  · have hg := congrArg List.getLast? he
    rw [List.getLast?_concat, List.getLast?_concat] at hg
    exact slug_ne_referencias nombre (Option.some.inj hg).symm
  · rw [hbibn tdir] at h4
    rw [h4] at he
    cases he

theorem pjoin_vacio (p : Ruta) : pjoin p "" = p := by
  unfold pjoin
  rw [if_pos rfl]

theorem slug_vacio_sin_word {nombre : List Char}
    (h : ∀ c ∈ nombre, pyIsWord c = false) : slugifyL nombre = [] := by
  cases hx : tieneContenidoAlfanumerico (normalizado nombre) with
  | false => exact slug_vacio hx
  | true =>
    exfalso
    rcases List.any_eq_true.mp hx with ⟨c, hc, hcb⟩
    have hw : pyIsWord c = true := by
      have := (by simpa using hcb : pyIsWord c = true ∧ ¬(c = '_'))
      exact this.1
    have hc2 := mem_stripChars hc
    rcases List.mem_map.mp hc2 with ⟨d, hd, hde⟩
    rcases List.mem_map.mp hd with ⟨e, he, hre⟩
    have hew : pyIsWord e = false := h e he
    rw [← hde, ← hre, reemplazarChar_id_of_no_word hew, pyLower_no_word hew, hew] at hw
    cases hw

theorem sinDoble_of_chain :
    ∀ {l : List Char}, List.Chain' (fun a c => ¬(a = '-' ∧ c = '-')) l →
      sinDobleGuion l = true
  | [], _ => rfl
  | [_], _ => rfl
  | a :: b :: t, h => by
    rcases List.chain'_cons'.mp h with ⟨h1, h2⟩
    have hab : ¬(a = '-' ∧ b = '-') := h1 b rfl
    have hr := sinDoble_of_chain h2
    show (!(a == '-' && b == '-') && sinDobleGuion (b :: t)) = true
    rw [hr, Bool.and_true]
    have : ¬a = '-' ∨ ¬b = '-' := by tauto
    simpa using this

theorem replaceL_pre (pat repl : List Char) :
    ∀ (pre rest : List Char), startsIn pat pre rest = false →
      replaceL pat repl (pre ++ rest) = pre ++ replaceL pat repl rest
  | [], _, _ => rfl
  | c :: pre, rest, h => by
    have h' : pat.isPrefixOf (c :: (pre ++ rest)) = false ∧
        startsIn pat pre rest = false := by
      simpa [startsIn] using h
    rw [List.cons_append, replaceL_cons_no_match _ h'.1,
      replaceL_pre pat repl pre rest h'.2, List.cons_append]

/-! ## Claim theorems -/

/-- Claim C1 (counterexample): the claim "slugify returns only lowercase
ASCII letters, digits and hyphens" is false on the code: Python's `\w`
keeps every Unicode word character, so `slugify "ç" = "ç"`, whose single
character is not an ASCII letter, digit or hyphen. -/
theorem slugify_no_solo_ascii :
    slugifyL (strL "ç") = strL "ç" ∧
    (slugifyL (strL "ç")).all
      (fun c => decide (('a' ≤ c ∧ c ≤ 'z') ∨ ('0' ≤ c ∧ c ≤ '9') ∨ c = '-')) = false := by
  decide

/-- Claim C1 (amended): for every input, every character of the `slugify`
output is a lowercase-invariant word character other than underscore or a
hyphen (word characters include non-ASCII letters such as ç); the output
has no leading, trailing or doubled hyphen; and it is empty exactly when
the input has no alphanumeric content after normalization. -/
theorem slugify_salida_normalizada (s : List Char) :
    (slugifyL s).all esSlugChar = true ∧
    sinGuionBorde (slugifyL s) = true ∧
    sinDobleGuion (slugifyL s) = true ∧
    (slugifyL s).isEmpty = !(tieneContenidoAlfanumerico (normalizado s)) := by
  refine ⟨?_, ?_, sinDoble_of_chain (slug_chain s), ?_⟩
  · rw [List.all_eq_true]
    intro c hc
    rcases slug_mem hc with rfl | ⟨hw, hu, hs, hl, _⟩
    · simp [esSlugChar]
    · simp [esSlugChar, hw, hu, hs, hl]
  · have hh : ((slugifyL s).head? != some '-') = true := by
      cases hx : (slugifyL s).head? with
      | none => rfl
      | some c => simp [slug_head hx]
    have hl : ((slugifyL s).getLast? != some '-') = true := by
      cases hx : (slugifyL s).getLast? with
      | none => rfl
      | some c => simp [slug_last hx]
    simp [sinGuionBorde, hh, hl]
  · cases hx : tieneContenidoAlfanumerico (normalizado s) with
    | true =>
      have hne := slug_no_vacio hx
      cases hsl : slugifyL s with
      | nil => exact absurd hsl hne
      | cons a t => rfl
    | false =>
      rw [slug_vacio hx]
      rfl

/-- Claim C6: `slugify` replaces the accented characters of the fixed table
with their unaccented equivalents before case-folding, then lowercases and
cleans up; concretely `slugify "Ética en IA" = "etica-en-ia"` and
`slugify "  Mi --- artículo!!  " = "mi-articulo"`, and on each table entry
the slug of the pattern character is the lowercased replacement. -/
theorem slugify_ejemplos :
    slugify "Ética en IA" = "etica-en-ia" ∧
    slugify "  Mi --- artículo!!  " = "mi-articulo" ∧
    (reemplazos.map fun p => slugifyL [p.1]) = (reemplazos.map fun p => [pyLower p.2]) := by
  decide

/-- Claim C9: `slugify` is idempotent — the output of the normalization
pipeline is a fixed point of the pipeline. -/
theorem slugify_idempotente (s : String) : slugify (slugify s) = slugify s := by
  unfold slugify
  exact congrArg String.mk (slug_idem s.data)

/-- Claim C2 (counterexample): the claim that a replacement value
containing the wrapped form of another key of the same mapping is never
substituted is false: keys are processed sequentially, so the later key B
rewrites the text just inserted for the earlier key A. -/
theorem sustituir_expande_claves_posteriores :
    sustituir_placeholders (wrapped (strL "A"))
        [(strL "A", wrapped (strL "B")), (strL "B", strL "x")] = strL "x" ∧
    (sustituir_placeholders (wrapped (strL "A"))
        [(strL "A", wrapped (strL "B")), (strL "B", strL "x")] ==
      wrapped (strL "B")) = false := by
  decide

/-- Claim C2 (amended): each key's substitution is a single left-to-right
pass — on a match the value is inserted and scanning resumes after the
occurrence, so the inserted value is never rescanned by the same key's
pass, and a value containing its own key's wrapped form stays unexpanded;
but keys are processed sequentially in mapping order, so the wrapped form
of a key occurring later in the mapping is substituted by that later
key's own pass. -/
theorem sustituir_paso_unico :
    (∀ k v suffix : List Char,
      replaceL (wrapped k) v (wrapped k ++ suffix) =
        v ++ replaceL (wrapped k) v suffix) ∧
    (∀ k v : List Char, sustituir_placeholders (wrapped k) [(k, v)] = v) ∧
    (∀ (body : List Char) (kv : List Char × List Char)
      (rest : List (List Char × List Char)),
      sustituir_placeholders body (kv :: rest) =
        sustituir_placeholders (replaceL (wrapped kv.1) kv.2 body) rest) ∧
    sustituir_placeholders (wrapped (strL "A")) [(strL "A", wrapped (strL "A"))] =
      wrapped (strL "A") :=
  ⟨fun k v suffix => replaceL_match (wrapped k) v (wrapped_ne_nil k) suffix,
   sustituir_clave_sola, sustituir_cons, sustituir_clave_sola _ _⟩

/-- Claim C5 (counterexample): the claim that double-brace tokens whose
names are not keys of the mapping are always left verbatim is false
without a restriction on the keys: the brace-containing key `X}}{{Y`
has the wrapped form `{{X}}{{Y}}`, so rendering the body `{{X}}{{Y}}`
with that single binding replaces both of the tokens `X` and `Y`, neither
of whose names is a key of the mapping. -/
theorem render_token_solapado :
    sustituir_placeholders (wrapped (strL "X") ++ wrapped (strL "Y"))
        [(strL "X\x7d\x7d\x7b\x7bY", strL "boom")] = strL "boom" ∧
    occursIn (wrapped (strL "X"))
        (sustituir_placeholders (wrapped (strL "X") ++ wrapped (strL "Y"))
          [(strL "X\x7d\x7d\x7b\x7bY", strL "boom")]) = false ∧
    occursIn (wrapped (strL "Y"))
        (sustituir_placeholders (wrapped (strL "X") ++ wrapped (strL "Y"))
          [(strL "X\x7d\x7d\x7b\x7bY", strL "boom")]) = false ∧
    (strL "X\x7d\x7d\x7b\x7bY" == strL "X") = false ∧
    (strL "X\x7d\x7d\x7b\x7bY" == strL "Y") = false := by
  decide

/-- Claim C5 (amended): for every body, every brace-free token name, and
every variable mapping whose keys are brace-free and different from that
name — as the program's keys TITULO, AUTOR, FECHA and NOMBRE_ARCHIVO
are — every occurrence of the token in the body is left verbatim, with no
error, and the text on either side of it is rendered independently; in
particular rendering `{{UNKNOWN}} {{TITLE}}` with the one-key mapping
`TITLE ↦ X` yields `{{UNKNOWN}} X`. -/
theorem render_token_desconocido_general :
    (∀ (u b1 b2 : List Char) (vars : List (List Char × List Char)),
      sinLlaves u = true →
      (∀ kv ∈ vars, sinLlaves kv.1 = true ∧ kv.1 ≠ u) →
      sustituir_placeholders (b1 ++ wrapped u ++ b2) vars =
        sustituir_placeholders b1 vars ++ wrapped u ++
          sustituir_placeholders b2 vars) ∧
    sustituir_placeholders
        (wrapped (strL "UNKNOWN") ++ ' ' :: wrapped (strL "TITLE"))
        [(strL "TITLE", strL "X")] =
      wrapped (strL "UNKNOWN") ++ ' ' :: strL "X" :=
  ⟨fun u b1 b2 vars hu h => sustituir_token hu vars b1 b2 h, by decide⟩

/-- Claim C7: substitution is the identity on bodies in which no key's
wrapped form occurs — every non-token character passes through
unchanged. -/
theorem render_identidad_sin_tokens (body : List Char)
    (vars : List (List Char × List Char))
    (h : ∀ kv ∈ vars, occursIn (wrapped kv.1) body = false) :
    sustituir_placeholders body vars = body :=
  sustituir_identidad vars body h

/-- Witness for claim C7 at a concrete body and mapping. -/
theorem render_identidad_sin_tokens_testigo :
    sustituir_placeholders (strL "hola mundo") [(strL "TITULO", strL "X")] =
      strL "hola mundo" :=
  render_identidad_sin_tokens (strL "hola mundo") [(strL "TITULO", strL "X")]
    (by decide)

/-- Witness for claim C8 at a concrete invocation. -/
theorem crear_bib_respaldo_testigo :
    (crear_proyecto (strL "Hola") "art" (strL "Ana") ["b"] ⟨1, 1, 2026⟩ ["t"]
      ⟨[["t"], ["b"]], []⟩).1 = none ∧
    readFileD (crear_proyecto (strL "Hola") "art" (strL "Ana") ["b"] ⟨1, 1, 2026⟩ ["t"]
        ⟨[["t"], ["b"]], []⟩).2
      (pjoin (pjoin ["b"] (String.mk (slugifyL (strL "Hola")))) "referencias.bib") =
      strL "% Referencias bibliográficas\n" :=
  crear_bib_respaldo (strL "Hola") (strL "Ana") "art" ["b"] ⟨1, 1, 2026⟩ ["t"]
    ⟨[["t"], ["b"]], []⟩ ⟨"articulo.tex", "Artículo (article)", "article"⟩
    (by decide) (by decide) (by decide) (by decide) (by decide)

/-- Claim C4: template-store resolution exits fatally exactly when the
store directory itself does not exist (and the exit is the
missing-templates error); when the store exists the call returns normally,
and the advisory list names exactly the required files that are absent. -/
theorem verificar_plantillas_spec (tdir : Ruta) (fs : FS) :
    ((verificar_plantillas tdir fs).1 =
      if fsExists fs tdir then none else some Err.plantillasNoEncontradas) ∧
    ((verificar_plantillas tdir fs).1.isSome = !(fsExists fs tdir)) ∧
    (∀ a : String, a ∈ (verificar_plantillas tdir fs).2 ↔
      (fsExists fs tdir = true ∧ a ∈ archivos_necesarios ∧
        fsExists fs (pjoin tdir a) = false)) := by
  unfold verificar_plantillas
  by_cases h : fsExists fs tdir = true
  · simp [h, List.mem_filter]
  · have h' : fsExists fs tdir = false := by simpa using h
    simp [h', List.mem_filter]

/-- Claim C3: with a recognized type and an existing template store, a
pre-existing target directory makes `crear_proyecto` fail fatally with the
collision error leaving the file system exactly as it was; and two
successive invocations with identical arguments succeed the first time,
then fail the second time with the collision error, the state produced by
the first invocation left untouched by the second. -/
theorem crear_proyecto_colision (nombre autor : List Char) (tipo : String)
    (base : Ruta) (hoy : Fecha) (tdir : Ruta) (fs : FS) (info : InfoTipo)
    (h1 : TIPOS.lookup tipo = some info)
    (h2 : fsExists fs tdir = true) :
    (fsExists fs (pjoin base (String.mk (slugifyL nombre))) = true →
      crear_proyecto nombre tipo autor base hoy tdir fs =
        (some Err.directorioYaExiste, fs)) ∧
    (fsExists fs (pjoin base (String.mk (slugifyL nombre))) = false →
      (crear_proyecto nombre tipo autor base hoy tdir fs).1 = none ∧
      crear_proyecto nombre tipo autor base hoy tdir
          (crear_proyecto nombre tipo autor base hoy tdir fs).2 =
        (some Err.directorioYaExiste,
          (crear_proyecto nombre tipo autor base hoy tdir fs).2)) := by
  constructor
  · intro h3
    exact crear_ya_existe nombre autor tipo base hoy tdir fs info h1 h2 h3
  · intro h3
    rcases crear_exito nombre autor tipo base hoy tdir fs info h1 h2 h3 with
      ⟨hr, hdir, htd⟩
    exact ⟨hr, crear_ya_existe nombre autor tipo base hoy tdir _ info h1 htd hdir⟩

/-- Witness for claim C3: both halves at concrete invocations — a
pre-existing target, and a fresh run followed by a second colliding run. -/
theorem crear_proyecto_colision_testigo :
    crear_proyecto (strL "Hola") "art" (strL "Ana") ["b"] ⟨1, 1, 2026⟩ ["t"]
        ⟨[["b", "hola"], ["t"], ["b"]], []⟩ =
      (some Err.directorioYaExiste, ⟨[["b", "hola"], ["t"], ["b"]], []⟩) ∧
    ((crear_proyecto (strL "Hola") "art" (strL "Ana") ["b"] ⟨1, 1, 2026⟩ ["t"]
        ⟨[["t"], ["b"]], []⟩).1 = none ∧
      crear_proyecto (strL "Hola") "art" (strL "Ana") ["b"] ⟨1, 1, 2026⟩ ["t"]
          (crear_proyecto (strL "Hola") "art" (strL "Ana") ["b"] ⟨1, 1, 2026⟩ ["t"]
            ⟨[["t"], ["b"]], []⟩).2 =
        (some Err.directorioYaExiste,
          (crear_proyecto (strL "Hola") "art" (strL "Ana") ["b"] ⟨1, 1, 2026⟩ ["t"]
            ⟨[["t"], ["b"]], []⟩).2)) :=
  ⟨(crear_proyecto_colision (strL "Hola") (strL "Ana") "art" ["b"] ⟨1, 1, 2026⟩ ["t"]
      ⟨[["b", "hola"], ["t"], ["b"]], []⟩
      ⟨"articulo.tex", "Artículo (article)", "article"⟩ (by decide) (by decide)).1
      (by decide),
   (crear_proyecto_colision (strL "Hola") (strL "Ana") "art" ["b"] ⟨1, 1, 2026⟩ ["t"]
      ⟨[["t"], ["b"]], []⟩
      ⟨"articulo.tex", "Artículo (article)", "article"⟩ (by decide) (by decide)).2
      (by decide)⟩

/-- Claim C10: for a title with no word characters the slug is empty, the
computed target path `directorio_base / slug` equals the base directory
itself, and so with an existing base directory (and a recognized type and
an existing store) `crear_proyecto` always fails with the
directory-already-exists collision error and creates nothing — there is
no dedicated empty-title diagnostic. -/
theorem crear_titulo_sin_palabras (nombre autor : List Char) (tipo : String)
    (base : Ruta) (hoy : Fecha) (tdir : Ruta) (fs : FS) (info : InfoTipo)
    (h0 : ∀ c ∈ nombre, pyIsWord c = false)
    (h1 : TIPOS.lookup tipo = some info)
    (h2 : fsExists fs tdir = true)
    (h4 : fsExists fs base = true) :
    slugifyL nombre = [] ∧
    pjoin base (String.mk (slugifyL nombre)) = base ∧
    crear_proyecto nombre tipo autor base hoy tdir fs =
      (some Err.directorioYaExiste, fs) := by
  have hs : slugifyL nombre = [] := slug_vacio_sin_word h0
  have hp : pjoin base (String.mk (slugifyL nombre)) = base := by
    rw [hs]
    exact pjoin_vacio base
  refine ⟨hs, hp, ?_⟩
  apply crear_ya_existe nombre autor tipo base hoy tdir fs info h1 h2
  rw [hp]
  exact h4

/-- Witness for claim C10 at a concrete invocation with a symbol-only
title. -/
theorem crear_titulo_sin_palabras_testigo :
    slugifyL (strL "!!!") = [] ∧
    pjoin ["b"] (String.mk (slugifyL (strL "!!!"))) = ["b"] ∧
    crear_proyecto (strL "!!!") "art" (strL "Ana") ["b"] ⟨1, 1, 2026⟩ ["t"]
        ⟨[["t"], ["b"]], []⟩ =
      (some Err.directorioYaExiste, ⟨[["t"], ["b"]], []⟩) :=
  crear_titulo_sin_palabras (strL "!!!") (strL "Ana") "art" ["b"] ⟨1, 1, 2026⟩ ["t"]
    ⟨[["t"], ["b"]], []⟩ ⟨"articulo.tex", "Artículo (article)", "article"⟩
    (by decide) (by decide) (by decide) (by decide)

end GenerarProyecto
